import Mathlib

/-!
Verification of the selection dispatch subsystem of
`src/bokehjs/src/lib/models/tools/gestures/select_tool.ts`.

The TypeScript class `SelectToolView` is shallowly embedded as pure Lean
functions over explicit data:

* renderers are an inductive type (`GlyphRenderer`, `GraphRenderer`, other
  `DataRenderer` kinds);
* the JS object built by `_computed_renderers_by_data_source` becomes an
  association list from data-source id to renderer group, keys in first
  insertion order, pushes appended at the matching key;
* the stateful methods `_select`, `_clear`, `_keyup` become functions that
  return the list of observable effects (calls on collaborators) they perform,
  in order;
* the collaborator state touched by those effects (per-data-source selection
  state, render-request count) is an explicit `PlotState` record folded over
  an effect trace.

Model identifiers (`id` strings in the source) are `Nat`; screen/data
coordinates are `Int` (the claims under verification are about dispatch
structure, not floating-point arithmetic).
-/

/-- Selection combination modes (`core/enums.SelectionMode`). -/
inductive SelectionMode
  | replace
  | append
  | intersect
  | subtract
deriving DecidableEq, Repr, Inhabited

/-- The renderer kinds `_computed_renderers_by_data_source` distinguishes:
`GlyphRenderer` (data source directly on the renderer), `GraphRenderer`
(data source reached through `node_renderer`), and any other `DataRenderer`
(hits the `else continue` branch of the grouper, but still exposes
`get_selection_manager()` for `_clear`).  `rid` is the renderer's model id;
the second field is the relevant data source id. -/
inductive Renderer
  | glyph (rid : Nat) (source : Nat)
  | graph (rid : Nat) (node_source : Nat)
  | other (rid : Nat) (sm_source : Nat)
deriving DecidableEq, Repr, Inhabited

/-- The renderer's model id (`r.id`). -/
def Renderer.id : Renderer → Nat
  | .glyph rid _ => rid
  | .graph rid _ => rid
  | .other rid _ => rid

/-- The `source_id` computed by the loop body of
`_computed_renderers_by_data_source`: `r.data_source.id` for a
`GlyphRenderer`, `r.node_renderer.data_source.id` for a `GraphRenderer`,
and `none` for anything else (the `continue` branch). -/
def Renderer.source_id : Renderer → Option Nat
  | .glyph _ s => some s
  | .graph _ s => some s
  | .other _ _ => none

/-- The data source id owning the selection manager returned by
`r.get_selection_manager()`: the renderer's data source for a glyph
renderer, the node renderer's data source for a graph renderer. -/
def Renderer.sm_source : Renderer → Nat
  | .glyph _ s => s
  | .graph _ s => s
  | .other _ s => s

/-- A coordinate scale, by the interface `_emit_selection_event` consumes:
scalar `invert`, range `r_invert`, vectorized `v_invert`. -/
structure Scale where
  invert : Int → Int
  r_invert : Int → Int → Int × Int
  v_invert : List Int → List Int

/-- Screen-space geometry (`core/geometry.Geometry`), by shape tag, with the
fields `_emit_selection_event` reads. -/
inductive Geometry
  | point (sx sy : Int)
  | span (sx sy : Int)
  | rect (sx0 sx1 sy0 sy1 : Int)
  | poly (sx sy : List Int)
deriving DecidableEq, Repr

/-- Geometry augmented with data-space fields (`core/geometry.GeometryData`):
the original screen fields plus the inverted coordinates added by each branch
of the `switch` in `_emit_selection_event`. -/
inductive GeometryData
  | point (sx sy x y : Int)
  | span (sx sy x y : Int)
  | rect (sx0 sx1 sy0 sy1 x0 x1 y0 y1 : Int)
  | poly (sx sy x y : List Int)
deriving DecidableEq, Repr

/-- The `switch (geometry.type)` of `_emit_selection_event`: scalar `invert`
for `point` and `span`, `r_invert` of the endpoint pair per axis for `rect`,
`v_invert` of the coordinate sequences for `poly`. -/
def geometry_to_data (xm ym : Scale) : Geometry → GeometryData
  | .point sx sy => .point sx sy (xm.invert sx) (ym.invert sy)
  | .span sx sy => .span sx sy (xm.invert sx) (ym.invert sy)
  | .rect sx0 sx1 sy0 sy1 =>
      .rect sx0 sx1 sy0 sy1
        (xm.r_invert sx0 sx1).1 (xm.r_invert sx0 sx1).2
        (ym.r_invert sy0 sy1).1 (ym.r_invert sy0 sy1).2
  | .poly sx sy => .poly sx sy (xm.v_invert sx) (ym.v_invert sy)

/-- A `UIEvent` as `_select_mode` receives it: modifier flags plus the other
payload fields (which `_select_mode` must not depend on). -/
structure UIEventModel where
  sx : Int
  sy : Int
  shiftKey : Bool
  ctrlKey : Bool
  altKey : Bool
deriving DecidableEq, Repr

/-- A `KeyEvent` as `_keyup` receives it. -/
structure KeyEventModel where
  keyCode : Nat
deriving DecidableEq, Repr

namespace Keys

/-- Modelled from the spec: `Keys.Esc` of `core/dom` (not under `src/`), the
key code the gesture layer supplies for the Escape key (27). -/
def Esc : Nat := 27

end Keys

/-- The observable calls `SelectToolView` makes on its collaborators, in the
order it makes them. -/
inductive Effect
  /-- `sm.select(r_views, geometry, final, mode)` on the selection manager of
  data source `source`; `views` are the renderer ids whose views were passed. -/
  | sm_select (source : Nat) (views : List Nat) (g : Geometry) (final : Bool)
      (mode : SelectionMode)
  /-- `renderer.get_selection_manager().clear()` for a renderer whose
  selection manager belongs to data source `source`. -/
  | sm_clear (source : Nat)
  /-- `this.plot_view.request_render()`. -/
  | request_render
  /-- `this._emit_callback(geometry)` (the user-supplied callback hook). -/
  | run_callback (g : Geometry)
  /-- `this.plot_model.trigger_event(new SelectionGeometry(geometry_data, final))`. -/
  | selection_event (gd : GeometryData) (final : Bool)
  /-- the tool's clear `Signal0` was fired (`this.clear.emit()`). -/
  | clear_signal
deriving DecidableEq, Repr

/-- The source id of an `sm_select` effect, if the effect is one. -/
def Effect.select_source : Effect → Option Nat
  | .sm_select s _ _ _ _ => some s
  | _ => none

/-- The source id of an `sm_clear` effect, if the effect is one. -/
def Effect.clear_source : Effect → Option Nat
  | .sm_clear s => some s
  | _ => none

/-- Whether the effect is a selection-manager `select` call. -/
def Effect.is_sm_select : Effect → Bool
  | .sm_select _ _ _ _ _ => true
  | _ => false

/-- Whether the effect is the user callback hook. -/
def Effect.is_run_callback : Effect → Bool
  | .run_callback _ => true
  | _ => false

/-- Whether the effect is the `SelectionGeometry` notification event. -/
def Effect.is_selection_event : Effect → Bool
  | .selection_event _ _ => true
  | _ => false

/-- The state of a `SelectToolView` that the embedded methods read:
the result of `this.computed_renderers`, the set of renderer ids present in
`this.plot_view.renderer_views` (live views), whether `this.model.callback`
is non-null, the tool's configured default mode, and the frame's default
scales. -/
structure ToolView where
  computed_renderers : List Renderer
  live_view : Nat → Bool
  has_callback : Bool
  mode : SelectionMode
  xscale : Scale
  yscale : Scale

/-- One iteration of the loop body of `_computed_renderers_by_data_source`
once `source_id` is known: push `r` onto the group at key `s`, creating the
key (at the end, in JS object insertion order) if absent. -/
def groupInsert (groups : List (Nat × List Renderer)) (s : Nat) (r : Renderer) :
    List (Nat × List Renderer) :=
  match groups with
  | [] => [(s, [r])]
  | (k, g) :: rest =>
      if k = s then (k, g ++ [r]) :: rest else (k, g) :: groupInsert rest s r

/-- One iteration of the loop of `_computed_renderers_by_data_source`:
skip renderers without a `source_id` (the `continue` branch), otherwise
insert into the group keyed by the source id. -/
def groupStep (acc : List (Nat × List Renderer)) (r : Renderer) :
    List (Nat × List Renderer) :=
  match r.source_id with
  | none => acc
  | some s => groupInsert acc s r

/-- `_computed_renderers_by_data_source`, as a function of the computed
renderer sequence: the association list from data source id to the ordered
group of renderers referencing it. -/
def _computed_renderers_by_data_source (rs : List Renderer) :
    List (Nat × List Renderer) :=
  rs.foldl groupStep []

/-- First-match lookup in a grouping association list; `[]` when the key is
absent. -/
def lookupGroup (groups : List (Nat × List Renderer)) (k : Nat) : List Renderer :=
  match groups with
  | [] => []
  | (k', g) :: rest => if k' = k then g else lookupGroup rest k

/-- `_select_mode`: resolve the combination mode from the event's modifier
keys and the tool's configured default (`this.model.mode`).  The source's
final `unreachable()` branch is dead (the four boolean cases are exhaustive),
so the last live branch is the `shiftKey && ctrlKey` one. -/
def _select_mode (ev : UIEventModel) (default_mode : SelectionMode) : SelectionMode :=
  let shiftKey := ev.shiftKey
  let ctrlKey := ev.ctrlKey
  if !shiftKey && !ctrlKey then default_mode
  else if shiftKey && !ctrlKey then SelectionMode.append
  else if !shiftKey && ctrlKey then SelectionMode.intersect
  else SelectionMode.subtract

/-- `_clear`: one `get_selection_manager().clear()` per computed renderer, in
order and without grouping, then one `request_render()`. -/
def _clear (v : ToolView) : List Effect :=
  v.computed_renderers.map (fun r => Effect.sm_clear r.sm_source)
    ++ [Effect.request_render]

/-- `_keyup`: on the Escape key code, call `this._clear()` directly. -/
def _keyup (v : ToolView) (ev : KeyEventModel) : List Effect :=
  if ev.keyCode = Keys.Esc then _clear v else []

/-- Modelled from the spec: `Signal0.emit` (`core/signaling`, not under
`src/`) synchronously runs every subscribed listener.  Per `connect_signals`,
the view's sole subscription to the tool's clear signal is
`() => this._clear()`, so firing the clear broadcast primitive is the signal
firing followed by the effects of `_clear`. -/
def clear_emit (v : ToolView) : List Effect :=
  Effect.clear_signal :: _clear v

/-- `_emit_selection_event(geometry, final)`: convert the geometry to data
space through the frame's default scales and trigger one `SelectionGeometry`
event carrying it and the `final` flag. -/
def _emit_selection_event (v : ToolView) (g : Geometry) (final : Bool) : List Effect :=
  [Effect.selection_event (geometry_to_data v.xscale v.yscale g) final]

/-- `_select(geometry, final, mode)`: group the computed renderers by data
source; for each group call `select` once on the selection manager of the
group's first renderer, passing the views of exactly those group members
present in `plot_view.renderer_views`; then the callback hook if configured;
then `_emit_selection_event`. -/
def _select (v : ToolView) (g : Geometry) (final : Bool) (mode : SelectionMode) :
    List Effect :=
  ((_computed_renderers_by_data_source v.computed_renderers).map (fun p =>
      Effect.sm_select p.2.headI.sm_source
        ((p.2.filter (fun r => v.live_view r.id)).map Renderer.id) g final mode))
    ++ (if v.has_callback then [Effect.run_callback g] else [])
    ++ _emit_selection_event v g final

/-- The collaborator state an effect trace acts on: per-data-source selection
state (selected indices, keyed by data source id) and how many render
requests have been issued.  The contents a selection manager's `select`
computes are external hit-testing (out of scope per the spec), so `sm_select`
is not interpreted on this state; `sm_clear` empties the source's selection
and `request_render` bumps the render count. -/
structure PlotState where
  selection : Nat → List Nat
  renders : Nat

/-- Interpret one effect on the collaborator state. -/
def applyEffect (st : PlotState) : Effect → PlotState
  | .sm_clear s =>
      { st with selection := fun k => if k = s then [] else st.selection k }
  | .request_render => { st with renders := st.renders + 1 }
  | _ => st

/-- Interpret an effect trace left to right. -/
def applyTrace (st : PlotState) (tr : List Effect) : PlotState :=
  tr.foldl applyEffect st

/-- The identity scale, used as a concrete fixture. -/
def idScale : Scale :=
  ⟨fun a => a, fun a b => (a, b), fun l => l⟩

/-- A scale whose range inversion disagrees with its two scalar inversions
(as a categorical scale's does), used as a concrete fixture. -/
def catScale : Scale :=
  ⟨fun a => a, fun a b => (b + 1, a), fun l => l⟩

/-- Concrete renderer list: two glyph renderers sharing source 10, a graph
renderer on source 20, and an unrecognized renderer kind. -/
def rs0 : List Renderer :=
  [Renderer.glyph 1 10, Renderer.glyph 2 10, Renderer.graph 3 20,
   Renderer.other 4 99]

/-- Concrete tool view over `rs0`, every view live, callback configured. -/
def v0 : ToolView :=
  { computed_renderers := rs0
    live_view := fun _ => true
    has_callback := true
    mode := SelectionMode.replace
    xscale := idScale
    yscale := idScale }

/-- Concrete tool view whose only computed renderer has no resolvable data
source (zero groups), no callback configured. -/
def v1 : ToolView :=
  { v0 with computed_renderers := [Renderer.other 4 99], has_callback := false }

/-- Concrete plot state with a non-empty selection on every source. -/
def st0 : PlotState :=
  ⟨fun _ => [5], 0⟩

/-- Concrete point geometry. -/
def gpt : Geometry := Geometry.point 5 5

/-! ### Lemmas about the grouper -/

/-- The head of a non-empty list is a member (specialized helper). -/
theorem headI_mem {l : List Renderer} (h : l ≠ []) : l.headI ∈ l := by
  cases l with
  | nil => exact absurd rfl h
  | cons a t => simp

/-- Inserting into a group rewrites first-match lookup pointwise: the key
inserted at gains `r` at the end, every other key is untouched. -/
theorem lookupGroup_groupInsert (groups : List (Nat × List Renderer)) (s : Nat)
    (r : Renderer) (k : Nat) :
    lookupGroup (groupInsert groups s r) k =
      if s = k then lookupGroup groups k ++ [r] else lookupGroup groups k := by
  induction groups with
  | nil =>
      by_cases h : s = k <;> simp [groupInsert, lookupGroup, h]
  | cons q rest ih =>
      obtain ⟨k', g⟩ := q
      by_cases hks : k' = s
      · subst hks
        by_cases h : k' = k <;> simp [groupInsert, lookupGroup, h]
      · by_cases h : k' = k
        · subst h
          have hsk : ¬ s = k' := fun e => hks e.symm
          simp [groupInsert, lookupGroup, hks, hsk]
        · simp [groupInsert, lookupGroup, hks, h, ih]

/-- Folding the grouper loop body updates lookup by appending, per key, the
input renderers whose `source_id` is that key, in input order. -/
theorem lookupGroup_foldl (rs : List Renderer) :
    ∀ (acc : List (Nat × List Renderer)) (k : Nat),
    lookupGroup (rs.foldl groupStep acc) k =
      lookupGroup acc k ++ rs.filter (fun r => decide (r.source_id = some k)) := by
  induction rs with
  | nil => intro acc k; simp
  | cons r rs ih =>
      intro acc k
      rw [List.foldl_cons, ih]
      cases h : r.source_id with
      | none => simp [groupStep, h, List.filter_cons]
      | some s =>
          by_cases hk : s = k
          · subst hk
            simp [groupStep, h, lookupGroup_groupInsert, List.filter_cons]
          · simp [groupStep, h, lookupGroup_groupInsert, hk, List.filter_cons,
              Option.some_inj]

/-- Inserting into a group leaves the key list unchanged when the key is
present, and appends the key otherwise. -/
theorem keys_groupInsert (groups : List (Nat × List Renderer)) (s : Nat)
    (r : Renderer) :
    (groupInsert groups s r).map Prod.fst =
      if s ∈ groups.map Prod.fst then groups.map Prod.fst
      else groups.map Prod.fst ++ [s] := by
  induction groups with
  | nil => simp [groupInsert]
  | cons q rest ih =>
      obtain ⟨k, g⟩ := q
      by_cases hk : k = s
      · subst hk; simp [groupInsert]
      · have hsk : ¬ s = k := fun e => hk e.symm
        by_cases hs : s ∈ rest.map Prod.fst <;>
          simp [groupInsert, hk, hsk, hs, ih]

/-- Group insertion preserves distinctness of the keys. -/
theorem keys_nodup_groupInsert {groups : List (Nat × List Renderer)} {s : Nat}
    {r : Renderer} (h : (groups.map Prod.fst).Nodup) :
    ((groupInsert groups s r).map Prod.fst).Nodup := by
  rw [keys_groupInsert]
  by_cases hs : s ∈ groups.map Prod.fst
  · simpa [hs] using h
  · simp [hs, List.nodup_append, h, List.disjoint_singleton, hs]

/-- Folding the grouper loop preserves distinctness of the keys. -/
theorem keys_nodup_foldl (rs : List Renderer) :
    ∀ acc : List (Nat × List Renderer), ((acc.map Prod.fst).Nodup) →
      (((rs.foldl groupStep acc).map Prod.fst)).Nodup := by
  induction rs with
  | nil => intro acc h; simpa using h
  | cons r rs ih =>
      intro acc h
      rw [List.foldl_cons]
      apply ih
      cases hsrc : r.source_id with
      | none => simpa [groupStep, hsrc] using h
      | some s => simpa [groupStep, hsrc] using keys_nodup_groupInsert h

/-- The data-source keys of the grouper's result are pairwise distinct. -/
theorem keys_nodup (rs : List Renderer) :
    ((_computed_renderers_by_data_source rs).map Prod.fst).Nodup :=
  keys_nodup_foldl rs [] (by simp)

/-- Key membership after a group insertion. -/
theorem mem_keys_groupInsert {groups : List (Nat × List Renderer)} {s : Nat}
    {r : Renderer} {k : Nat} :
    k ∈ (groupInsert groups s r).map Prod.fst ↔
      k = s ∨ k ∈ groups.map Prod.fst := by
  rw [keys_groupInsert]
  by_cases hs : s ∈ groups.map Prod.fst
  · simp only [hs, if_pos]
    constructor
    · exact Or.inr
    · rintro (e | h)
      · exact e ▸ hs
      · exact h
  · rw [if_neg hs]
    simp [or_comm]

/-- Key membership in the grouper's fold. -/
theorem mem_keys_foldl (rs : List Renderer) :
    ∀ (acc : List (Nat × List Renderer)) (k : Nat),
      k ∈ (rs.foldl groupStep acc).map Prod.fst ↔
        k ∈ acc.map Prod.fst ∨ ∃ r ∈ rs, r.source_id = some k := by
  induction rs with
  | nil => intro acc k; simp
  | cons r rs ih =>
      intro acc k
      rw [List.foldl_cons, ih]
      cases hsrc : r.source_id with
      | none =>
          simp only [groupStep, hsrc, List.mem_cons]
          constructor
          · rintro (h | h)
            · exact Or.inl h
            · exact Or.inr (by obtain ⟨r', hr', he⟩ := h; exact ⟨r', Or.inr hr', he⟩)
          · rintro (h | ⟨r', hr' | hr', he⟩)
            · exact Or.inl h
            · rw [← hr'] at hsrc; rw [hsrc] at he; exact absurd he (by simp)
            · exact Or.inr ⟨r', hr', he⟩
      | some s =>
          simp only [groupStep, hsrc, mem_keys_groupInsert, List.mem_cons]
          constructor
          · rintro ((e | h) | h)
            · exact Or.inr ⟨r, Or.inl rfl, by rw [hsrc, e]⟩
            · exact Or.inl h
            · exact Or.inr (by obtain ⟨r', hr', he⟩ := h; exact ⟨r', Or.inr hr', he⟩)
          · rintro (h | ⟨r', hr' | hr', he⟩)
            · exact Or.inl (Or.inr h)
            · rw [← hr'] at hsrc; rw [hsrc] at he
              exact Or.inl (Or.inl (by injection he with e; exact e.symm))
            · exact Or.inr ⟨r', hr', he⟩

/-- A key appears in the grouper's result iff some input renderer resolves to
that data source. -/
theorem mem_keys (rs : List Renderer) (k : Nat) :
    k ∈ (_computed_renderers_by_data_source rs).map Prod.fst ↔
      ∃ r ∈ rs, r.source_id = some k := by
  rw [_computed_renderers_by_data_source, mem_keys_foldl]
  simp

/-- Group insertion preserves non-emptiness of every group. -/
theorem groups_ne_nil_groupInsert {groups : List (Nat × List Renderer)} {s : Nat}
    {r : Renderer} (h : ∀ p ∈ groups, p.2 ≠ []) :
    ∀ p ∈ groupInsert groups s r, p.2 ≠ [] := by
  induction groups with
  | nil =>
      intro p hp
      simp only [groupInsert, List.mem_singleton] at hp
      subst hp; simp
  | cons q rest ih =>
      obtain ⟨k, g⟩ := q
      intro p hp
      by_cases hk : k = s
      · subst hk
        simp only [groupInsert, if_pos rfl, ite_true, eq_self_iff_true,
          List.mem_cons] at hp
        rcases hp with hp | hp
        · subst hp; simp
        · exact h p (List.mem_cons_of_mem _ hp)
      · simp only [groupInsert, if_neg hk, List.mem_cons] at hp
        rcases hp with hp | hp
        · subst hp; exact h (k, g) (List.mem_cons_self _ _)
        · exact ih (fun q hq => h q (List.mem_cons_of_mem _ hq)) p hp

/-- The grouper's fold preserves non-emptiness of every group. -/
theorem groups_ne_nil_foldl (rs : List Renderer) :
    ∀ acc : List (Nat × List Renderer), (∀ p ∈ acc, p.2 ≠ []) →
      ∀ p ∈ rs.foldl groupStep acc, p.2 ≠ [] := by
  induction rs with
  | nil => intro acc h; simpa using h
  | cons r rs ih =>
      intro acc h
      rw [List.foldl_cons]
      apply ih
      cases hsrc : r.source_id with
      | none => simpa only [groupStep, hsrc] using h
      | some s =>
          simp only [groupStep, hsrc]
          exact groups_ne_nil_groupInsert h

/-- Every group in the grouper's result is non-empty. -/
theorem groups_ne_nil (rs : List Renderer) :
    ∀ p ∈ _computed_renderers_by_data_source rs, p.2 ≠ [] :=
  groups_ne_nil_foldl rs [] (by simp)

/-- First-match lookup of a member's key returns the member's group once the
keys are distinct. -/
theorem lookupGroup_eq_of_mem :
    ∀ {l : List (Nat × List Renderer)}, ((l.map Prod.fst).Nodup) →
      ∀ {p : Nat × List Renderer}, p ∈ l → lookupGroup l p.1 = p.2 := by
  intro l
  induction l with
  | nil => intro _ p hp; exact absurd hp (List.not_mem_nil p)
  | cons q rest ih =>
      intro hnd p hp
      obtain ⟨k, g⟩ := q
      rw [List.map_cons, List.nodup_cons] at hnd
      rcases List.mem_cons.mp hp with h | h
      · subst h; simp [lookupGroup]
      · have hk : ¬ k = p.1 := by
          intro e
          exact hnd.1 (e ▸ List.mem_map.mpr ⟨p, h, rfl⟩)
        simp only [lookupGroup, if_neg hk]
        exact ih hnd.2 h

/-- Each group in the grouper's result is exactly the input sequence filtered
to the renderers resolving to the group's key — hence in input order. -/
theorem group_eq_filter {rs : List Renderer} {p : Nat × List Renderer}
    (hp : p ∈ _computed_renderers_by_data_source rs) :
    p.2 = rs.filter (fun r => decide (r.source_id = some p.1)) := by
  have h1 := lookupGroup_eq_of_mem (keys_nodup rs) hp
  have h2 := lookupGroup_foldl rs [] p.1
  rw [← h1]
  rw [_computed_renderers_by_data_source, h2]
  simp [lookupGroup]

/-- Every member of a group resolves to the group's key. -/
theorem mem_group_source {rs : List Renderer} {p : Nat × List Renderer}
    (hp : p ∈ _computed_renderers_by_data_source rs) {r : Renderer}
    (hr : r ∈ p.2) : r.source_id = some p.1 := by
  rw [group_eq_filter hp] at hr
  simpa using (List.mem_filter.mp hr).2

/-- A renderer with a resolvable data source has its selection manager on
that same data source. -/
theorem sm_source_of_source_id {r : Renderer} {s : Nat}
    (h : r.source_id = some s) : r.sm_source = s := by
  cases r <;> simp_all [Renderer.source_id, Renderer.sm_source]

/-- The selection manager resolved from a group's first renderer belongs to
the group's data source key. -/
theorem headI_sm_source {rs : List Renderer} {p : Nat × List Renderer}
    (hp : p ∈ _computed_renderers_by_data_source rs) :
    p.2.headI.sm_source = p.1 :=
  sm_source_of_source_id (mem_group_source hp (headI_mem (groups_ne_nil rs p hp)))

/-- Group insertion appends `r` to the flattened groups, up to permutation. -/
theorem join_groupInsert (groups : List (Nat × List Renderer)) (s : Nat)
    (r : Renderer) :
    List.Perm ((groupInsert groups s r).map Prod.snd).flatten
      ((groups.map Prod.snd).flatten ++ [r]) := by
  induction groups with
  | nil => simp [groupInsert]
  | cons q rest ih =>
      obtain ⟨k, g⟩ := q
      by_cases hk : k = s
      · subst hk
        simp only [groupInsert, if_pos rfl, ite_true, eq_self_iff_true,
          List.map_cons, List.flatten_cons]
        rw [List.append_assoc, List.append_assoc]
        exact List.Perm.append_left g List.perm_append_comm
      · simp only [groupInsert, if_neg hk, List.map_cons, List.flatten_cons]
        rw [List.append_assoc]
        exact List.Perm.append_left g ih

/-- The grouper's fold appends, up to permutation, the renderers with a
resolvable data source to the flattened groups. -/
theorem join_foldl (rs : List Renderer) :
    ∀ acc : List (Nat × List Renderer),
      List.Perm ((rs.foldl groupStep acc).map Prod.snd).flatten
        ((acc.map Prod.snd).flatten ++ rs.filter (fun r => r.source_id.isSome)) := by
  induction rs with
  | nil => intro acc; simp
  | cons r rs ih =>
      intro acc
      rw [List.foldl_cons]
      cases hsrc : r.source_id with
      | none =>
          have h4 : List.filter (fun x => x.source_id.isSome) (r :: rs) =
              List.filter (fun x => x.source_id.isSome) rs := by
            simp [List.filter_cons, hsrc]
          rw [h4]
          simpa only [groupStep, hsrc] using ih acc
      | some s =>
          have h4 : List.filter (fun x => x.source_id.isSome) (r :: rs) =
              r :: List.filter (fun x => x.source_id.isSome) rs := by
            simp [List.filter_cons, hsrc]
          rw [h4]
          have h1 := ih (groupInsert acc s r)
          have h2 := (join_groupInsert acc s r).append_right
            (rs.filter (fun x => x.source_id.isSome))
          simp only [groupStep, hsrc]
          refine (h1.trans h2).trans ?_
          rw [List.append_assoc]
          exact List.Perm.refl _

/-- The flattened groups are a permutation of the input renderers with a
resolvable data source. -/
theorem join_groups (rs : List Renderer) :
    List.Perm ((_computed_renderers_by_data_source rs).map Prod.snd).flatten
      (rs.filter (fun r => r.source_id.isSome)) := by
  simpa using join_foldl rs []

/-! ### Lemmas about the `_select` trace -/

/-- The per-call sequence of selection-manager `select` sources is exactly
the group key list. -/
theorem select_sources (v : ToolView) (g : Geometry) (final : Bool)
    (mode : SelectionMode) :
    (_select v g final mode).filterMap Effect.select_source =
      (_computed_renderers_by_data_source v.computed_renderers).map Prod.fst := by
  rw [_select, List.filterMap_append, List.filterMap_append]
  have h1 : List.filterMap Effect.select_source
      (if v.has_callback then [Effect.run_callback g] else []) = [] := by
    by_cases h : v.has_callback <;> simp [h, Effect.select_source]
  have h2 : List.filterMap Effect.select_source
      (_emit_selection_event v g final) = [] := by
    simp [_emit_selection_event, Effect.select_source]
  rw [h1, h2, List.append_nil, List.append_nil]
  have h3 : ∀ l : List (Nat × List Renderer),
      List.filterMap Effect.select_source (l.map (fun p =>
        Effect.sm_select p.2.headI.sm_source
          ((p.2.filter (fun r => v.live_view r.id)).map Renderer.id)
          g final mode)) =
      l.map (fun p => p.2.headI.sm_source) := by
    intro l
    induction l with
    | nil => rfl
    | cons p l ih => simp [List.filterMap_cons, Effect.select_source, ih]
  rw [h3]
  exact List.map_congr_left (fun p hp => headI_sm_source hp)

/-- Applying a concatenated trace is sequential application. -/
theorem applyTrace_append (st : PlotState) (a b : List Effect) :
    applyTrace st (a ++ b) = applyTrace (applyTrace st a) b :=
  List.foldl_append applyEffect st a b

/-- A run of `sm_clear` effects empties exactly the cleared sources. -/
theorem applyTrace_clears_selection (l : List Renderer) (st : PlotState)
    (k : Nat) :
    (applyTrace st (l.map (fun r => Effect.sm_clear r.sm_source))).selection k =
      if k ∈ l.map Renderer.sm_source then [] else st.selection k := by
  induction l generalizing st with
  | nil => simp [applyTrace]
  | cons r l ih =>
      have hstep : applyTrace st ((r :: l).map (fun x => Effect.sm_clear x.sm_source)) =
          applyTrace (applyEffect st (Effect.sm_clear r.sm_source))
            (l.map (fun x => Effect.sm_clear x.sm_source)) := rfl
      rw [hstep, ih]
      by_cases hk : k ∈ l.map Renderer.sm_source
      · simp [hk]
      · by_cases he : k = r.sm_source <;>
          simp [applyEffect, hk, he, List.mem_cons]

/-- A run of `sm_clear` effects leaves the render count unchanged. -/
theorem applyTrace_clears_renders (l : List Renderer) (st : PlotState) :
    (applyTrace st (l.map (fun r => Effect.sm_clear r.sm_source))).renders =
      st.renders := by
  induction l generalizing st with
  | nil => rfl
  | cons r l ih =>
      have hstep : applyTrace st ((r :: l).map (fun x => Effect.sm_clear x.sm_source)) =
          applyTrace (applyEffect st (Effect.sm_clear r.sm_source))
            (l.map (fun x => Effect.sm_clear x.sm_source)) := rfl
      rw [hstep, ih]
      rfl

/-- Selection state after `_clear`: empty on every computed renderer's
selection-manager source, untouched elsewhere. -/
theorem clear_selection (v : ToolView) (st : PlotState) (k : Nat) :
    (applyTrace st (_clear v)).selection k =
      if k ∈ v.computed_renderers.map Renderer.sm_source then []
      else st.selection k := by
  rw [_clear, applyTrace_append, ← applyTrace_clears_selection]
  rfl

/-- `_clear` issues exactly one render request's worth of state change. -/
theorem clear_renders (v : ToolView) (st : PlotState) :
    (applyTrace st (_clear v)).renders = st.renders + 1 := by
  rw [_clear, applyTrace_append]
  have h1 : (applyTrace st
      (v.computed_renderers.map (fun r => Effect.sm_clear r.sm_source))).renders =
      st.renders := applyTrace_clears_renders _ _
  have h2 : ∀ x : PlotState, applyTrace x [Effect.request_render] =
      { x with renders := x.renders + 1 } := fun x => rfl
  rw [h2, ← h1]

/-- The selection-manager `select` calls of a `_select` trace are exactly its
per-group prefix. -/
theorem select_filter_sm (v : ToolView) (g : Geometry) (final : Bool)
    (mode : SelectionMode) :
    (_select v g final mode).filter Effect.is_sm_select =
      (_computed_renderers_by_data_source v.computed_renderers).map (fun p =>
        Effect.sm_select p.2.headI.sm_source
          ((p.2.filter (fun r => v.live_view r.id)).map Renderer.id)
          g final mode) := by
  rw [_select, List.filter_append, List.filter_append]
  have hA : ∀ l : List (Nat × List Renderer),
      (l.map (fun p => Effect.sm_select p.2.headI.sm_source
        ((p.2.filter (fun r => v.live_view r.id)).map Renderer.id)
        g final mode)).filter Effect.is_sm_select =
      l.map (fun p => Effect.sm_select p.2.headI.sm_source
        ((p.2.filter (fun r => v.live_view r.id)).map Renderer.id)
        g final mode) := by
    intro l
    refine List.filter_eq_self.mpr ?_
    intro e he
    obtain ⟨p, _, hpe⟩ := List.mem_map.mp he
    rw [← hpe]
    rfl
  have hB : (if v.has_callback then [Effect.run_callback g] else []).filter
      Effect.is_sm_select = [] := by
    by_cases h : v.has_callback <;> simp [h, Effect.is_sm_select]
  have hC : (_emit_selection_event v g final).filter Effect.is_sm_select = [] := by
    simp [_emit_selection_event, Effect.is_sm_select]
  rw [hA, hB, hC, List.append_nil, List.append_nil]

/-- The callback effects of a `_select` trace: present exactly when the
model's callback is configured. -/
theorem select_filter_cb (v : ToolView) (g : Geometry) (final : Bool)
    (mode : SelectionMode) :
    (_select v g final mode).filter Effect.is_run_callback =
      (if v.has_callback then [Effect.run_callback g] else []) := by
  rw [_select, List.filter_append, List.filter_append]
  have hA : ((_computed_renderers_by_data_source v.computed_renderers).map
      (fun p => Effect.sm_select p.2.headI.sm_source
        ((p.2.filter (fun r => v.live_view r.id)).map Renderer.id)
        g final mode)).filter Effect.is_run_callback = [] := by
    refine List.filter_eq_nil_iff.mpr ?_
    intro e he
    obtain ⟨p, _, hpe⟩ := List.mem_map.mp he
    rw [← hpe]
    simp [Effect.is_run_callback]
  have hB : (if v.has_callback then [Effect.run_callback g] else []).filter
      Effect.is_run_callback = (if v.has_callback then [Effect.run_callback g] else []) := by
    by_cases h : v.has_callback <;> simp [h, Effect.is_run_callback]
  have hC : (_emit_selection_event v g final).filter Effect.is_run_callback = [] := by
    simp [_emit_selection_event, Effect.is_run_callback]
  rw [hA, hB, hC, List.append_nil, List.nil_append]

/-- The notification effects of a `_select` trace: exactly one
`SelectionGeometry` event with the converted geometry and the final flag. -/
theorem select_filter_ev (v : ToolView) (g : Geometry) (final : Bool)
    (mode : SelectionMode) :
    (_select v g final mode).filter Effect.is_selection_event =
      [Effect.selection_event (geometry_to_data v.xscale v.yscale g) final] := by
  rw [_select, List.filter_append, List.filter_append]
  have hA : ((_computed_renderers_by_data_source v.computed_renderers).map
      (fun p => Effect.sm_select p.2.headI.sm_source
        ((p.2.filter (fun r => v.live_view r.id)).map Renderer.id)
        g final mode)).filter Effect.is_selection_event = [] := by
    refine List.filter_eq_nil_iff.mpr ?_
    intro e he
    obtain ⟨p, _, hpe⟩ := List.mem_map.mp he
    rw [← hpe]
    simp [Effect.is_selection_event]
  have hB : (if v.has_callback then [Effect.run_callback g] else []).filter
      Effect.is_selection_event = [] := by
    by_cases h : v.has_callback <;> simp [h, Effect.is_selection_event]
  have hC : (_emit_selection_event v g final).filter Effect.is_selection_event =
      [Effect.selection_event (geometry_to_data v.xscale v.yscale g) final] := by
    simp [_emit_selection_event, Effect.is_selection_event]
  rw [hA, hB, hC, List.nil_append, List.nil_append]

/-! ### Claims -/

/-- Claim C1: in any `_select(geometry, final, mode)` call, the selection
manager of each distinct data-source identity among the computed renderers is
invoked via `select` at most once, however many renderers share that
source. -/
theorem c1_at_most_one_select_per_source (v : ToolView) (g : Geometry)
    (final : Bool) (mode : SelectionMode) :
    ((_select v g final mode).filterMap Effect.select_source).Nodup ∧
    ∀ s : Nat,
      ((_select v g final mode).filterMap Effect.select_source).count s ≤ 1 := by
  have h : ((_select v g final mode).filterMap Effect.select_source).Nodup := by
    rw [select_sources]
    exact keys_nodup _
  exact ⟨h, fun s => List.nodup_iff_count_le_one.mp h s⟩

/-- Claim C2: `_select_mode` is a pure total function of exactly the two
modifier flags and the tool's default mode: default on no modifiers, append
on shift, intersect on ctrl, subtract on shift+ctrl; no other event field
affects the result. -/
theorem c2_select_mode_table (ev : UIEventModel) (d : SelectionMode) :
    _select_mode ev d =
      match ev.shiftKey, ev.ctrlKey with
      | false, false => d
      | true, false => SelectionMode.append
      | false, true => SelectionMode.intersect
      | true, true => SelectionMode.subtract := by
  obtain ⟨sx, sy, sk, ck, ak⟩ := ev
  cases sk <;> cases ck <;> rfl

/-- Claim C3: `_computed_renderers_by_data_source` partitions its input:
each group is the input filtered to the renderers resolving to the group's
key (hence stable input order, and all renderers sharing an identity land in
that one group); the flattened groups are a permutation of exactly the input
renderers with a resolvable data-source identity; keys are pairwise distinct;
every resolvable renderer lands in the group of its source; and no renderer
occurs in two different groups. -/
theorem c3_grouping_partition (rs : List Renderer) :
    (∀ p ∈ _computed_renderers_by_data_source rs,
        p.2 = rs.filter (fun r => decide (r.source_id = some p.1))) ∧
    List.Perm ((_computed_renderers_by_data_source rs).map Prod.snd).flatten
      (rs.filter (fun r => r.source_id.isSome)) ∧
    ((_computed_renderers_by_data_source rs).map Prod.fst).Nodup ∧
    (∀ (s : Nat) (r : Renderer), r ∈ rs → r.source_id = some s →
        ∃ p ∈ _computed_renderers_by_data_source rs, p.1 = s ∧ r ∈ p.2) ∧
    (∀ p q : Nat × List Renderer, p ∈ _computed_renderers_by_data_source rs →
        q ∈ _computed_renderers_by_data_source rs →
        ∀ r : Renderer, r ∈ p.2 → r ∈ q.2 → p = q) := by
  refine ⟨fun p hp => group_eq_filter hp, join_groups rs, keys_nodup rs, ?_, ?_⟩
  · intro s r hr hsrc
    have hk : s ∈ (_computed_renderers_by_data_source rs).map Prod.fst :=
      (mem_keys rs s).mpr ⟨r, hr, hsrc⟩
    obtain ⟨p, hp, he⟩ := List.mem_map.mp hk
    refine ⟨p, hp, he, ?_⟩
    rw [group_eq_filter hp, he]
    exact List.mem_filter.mpr ⟨hr, by simp [hsrc]⟩
  · intro p q hp hq r hrp hrq
    have h1 := mem_group_source hp hrp
    have h2 := mem_group_source hq hrq
    have hk : p.1 = q.1 := Option.some_inj.mp (h1 ▸ h2)
    have hv : p.2 = q.2 := by rw [group_eq_filter hp, group_eq_filter hq, hk]
    exact Prod.ext hk hv

/-- Witness for C3: on the concrete list `rs0`, the two glyph renderers
sharing source 10 form one group, in input order. -/
theorem c3_grouping_partition_witness :
    (10, [Renderer.glyph 1 10, Renderer.glyph 2 10]) ∈
      _computed_renderers_by_data_source rs0 ∧
    [Renderer.glyph 1 10, Renderer.glyph 2 10] =
      rs0.filter (fun r => decide (r.source_id = some 10)) := by
  refine ⟨by decide, ?_⟩
  exact (c3_grouping_partition rs0).1
    (10, [Renderer.glyph 1 10, Renderer.glyph 2 10]) (by decide)

/-- Claim C4: the geometry-to-data-space conversion dispatches on the shape
tag: point and span augment with two independent scalar inversions, rect
augments with each axis's range inversion of the endpoint pair (which, as the
final conjunct witnesses, need not agree with two independent scalar
inversions), and poly augments with the vectorized inversions of the full
coordinate sequences. -/
theorem c4_geometry_conversion (xm ym : Scale) :
    (∀ sx sy : Int, geometry_to_data xm ym (Geometry.point sx sy) =
      GeometryData.point sx sy (xm.invert sx) (ym.invert sy)) ∧
    (∀ sx sy : Int, geometry_to_data xm ym (Geometry.span sx sy) =
      GeometryData.span sx sy (xm.invert sx) (ym.invert sy)) ∧
    (∀ sx0 sx1 sy0 sy1 : Int,
      geometry_to_data xm ym (Geometry.rect sx0 sx1 sy0 sy1) =
        GeometryData.rect sx0 sx1 sy0 sy1
          (xm.r_invert sx0 sx1).1 (xm.r_invert sx0 sx1).2
          (ym.r_invert sy0 sy1).1 (ym.r_invert sy0 sy1).2) ∧
    (∀ sx sy : List Int, geometry_to_data xm ym (Geometry.poly sx sy) =
      GeometryData.poly sx sy (xm.v_invert sx) (ym.v_invert sy)) ∧
    (∃ (cs : Scale) (a b : Int),
      geometry_to_data cs cs (Geometry.rect a b a b) ≠
        GeometryData.rect a b a b (cs.invert a) (cs.invert b)
          (cs.invert a) (cs.invert b)) := by
  refine ⟨fun _ _ => rfl, fun _ _ => rfl, fun _ _ _ _ => rfl, fun _ _ => rfl, ?_⟩
  exact ⟨catScale, 0, 1, by decide⟩

/-- Claim C5 counterexample: on the concrete view `v0`, the Escape keyup
trace fires no clear signal and differs from the signal-emission trace:
`_keyup` invokes `_clear` directly rather than firing the Clear Signal. -/
theorem c5_escape_signal_counterexample :
    Effect.clear_signal ∉ _keyup v0 ⟨27⟩ ∧
    _keyup v0 ⟨27⟩ ≠ clear_emit v0 := by
  constructor
  · decide
  · decide

/-- Claim C5 amended: an Escape key event directly invokes the clear
operation `_clear`, firing no Clear Signal; listeners subscribed to the
Clear Signal are notified only when the signal itself is emitted. -/
theorem c5_escape_direct_clear (v : ToolView) (ev : KeyEventModel)
    (h : ev.keyCode = Keys.Esc) :
    _keyup v ev = _clear v ∧ Effect.clear_signal ∉ _keyup v ev := by
  have h1 : _keyup v ev = _clear v := by rw [_keyup, if_pos h]
  refine ⟨h1, ?_⟩
  rw [h1, _clear]
  intro hmem
  rcases List.mem_append.mp hmem with hm | hm
  · obtain ⟨r, _, he⟩ := List.mem_map.mp hm
    simp at he
  · simp at hm

/-- Witness for the amended C5 at a concrete view and Escape event. -/
theorem c5_escape_direct_clear_witness :
    _keyup v0 ⟨27⟩ = _clear v0 :=
  (c5_escape_direct_clear v0 ⟨27⟩ rfl).1

/-- Claim C6: `_clear` is idempotent on selection state — a second call
changes no source's selection — and one call empties every computed
renderer's source; each call clears each computed renderer's selection
manager directly, in input order and without grouping, and issues exactly
one render request. -/
theorem c6_clear_idempotent (v : ToolView) (st : PlotState) :
    (∀ k : Nat,
      (applyTrace (applyTrace st (_clear v)) (_clear v)).selection k =
        (applyTrace st (_clear v)).selection k) ∧
    (∀ r ∈ v.computed_renderers,
      (applyTrace st (_clear v)).selection r.sm_source = []) ∧
    (applyTrace st (_clear v)).renders = st.renders + 1 ∧
    (_clear v).filterMap Effect.clear_source =
      v.computed_renderers.map Renderer.sm_source ∧
    (_clear v).count Effect.request_render = 1 := by
  refine ⟨?_, ?_, clear_renders v st, ?_, ?_⟩
  · intro k
    rw [clear_selection, clear_selection]
    by_cases hk : k ∈ v.computed_renderers.map Renderer.sm_source <;> simp [hk]
  · intro r hr
    rw [clear_selection]
    have : r.sm_source ∈ v.computed_renderers.map Renderer.sm_source :=
      List.mem_map.mpr ⟨r, hr, rfl⟩
    simp [this]
  · rw [_clear, List.filterMap_append]
    have h1 : List.filterMap Effect.clear_source [Effect.request_render] = [] := by
      simp [Effect.clear_source]
    rw [h1, List.append_nil]
    induction v.computed_renderers with
    | nil => rfl
    | cons r l ih => simp [List.filterMap_cons, Effect.clear_source, ih]
  · rw [_clear, List.count_append]
    have h1 : (v.computed_renderers.map
        (fun r => Effect.sm_clear r.sm_source)).count Effect.request_render = 0 := by
      refine List.count_eq_zero.mpr ?_
      intro hmem
      obtain ⟨r, _, he⟩ := List.mem_map.mp hmem
      simp at he
    rw [h1]
    rfl

/-- Witness for C6: one concrete `_clear` empties the shared source 10. -/
theorem c6_clear_idempotent_witness :
    (applyTrace st0 (_clear v0)).selection 10 = [] :=
  (c6_clear_idempotent v0 st0).2.1 (Renderer.glyph 1 10) (by decide)

/-- Claim C7: inside `_select`, each group's selection manager is the one of
the group's first renderer (which owns the group's shared data source), the
views passed are exactly the group members with a live view in the plot's
view tree (members without one are dropped from that call only while staying
in the group), and the per-source `select` call list does not depend on
which views are live. -/
theorem c7_group_views (v : ToolView) (g : Geometry) (final : Bool)
    (mode : SelectionMode) :
    (∀ p ∈ _computed_renderers_by_data_source v.computed_renderers,
      Effect.sm_select p.2.headI.sm_source
        ((p.2.filter (fun r => v.live_view r.id)).map Renderer.id) g final mode
          ∈ _select v g final mode ∧
      p.2.headI.sm_source = p.1 ∧
      p.2.filter (fun r => v.live_view r.id) =
        (v.computed_renderers.filter
          (fun r => decide (r.source_id = some p.1))).filter
          (fun r => v.live_view r.id)) ∧
    (∀ lv : Nat → Bool,
      (_select { v with live_view := lv } g final mode).filterMap
          Effect.select_source =
        (_select v g final mode).filterMap Effect.select_source) := by
  constructor
  · intro p hp
    refine ⟨?_, headI_sm_source hp, ?_⟩
    · rw [_select]
      refine List.mem_append.mpr (Or.inl ?_)
      refine List.mem_append.mpr (Or.inl ?_)
      exact List.mem_map.mpr ⟨p, hp, rfl⟩
    · rw [← group_eq_filter hp]
  · intro lv
    rw [select_sources, select_sources]

/-- Witness for C7: the two live glyph renderers sharing source 10 are passed
together to that source's single `select` call. -/
theorem c7_group_views_witness :
    Effect.sm_select 10 [1, 2] gpt true SelectionMode.replace
      ∈ _select v0 gpt true SelectionMode.replace :=
  (((c7_group_views v0 gpt true SelectionMode.replace).1
    (10, [Renderer.glyph 1 10, Renderer.glyph 2 10]) (by decide)).1)

/-- Claim C8: a `_select` trace is exactly its selection-manager updates,
then its callback effects, then its notification events, in that order; the
callback effect is present exactly when a callback is configured, and the
notification is published in either case — so a configured callback runs
strictly after every per-group update and strictly before the
notification. -/
theorem c8_callback_order (v : ToolView) (g : Geometry) (final : Bool)
    (mode : SelectionMode) :
    (_select v g final mode =
      (_select v g final mode).filter Effect.is_sm_select ++
        (_select v g final mode).filter Effect.is_run_callback ++
        (_select v g final mode).filter Effect.is_selection_event) ∧
    ((_select v g final mode).filter Effect.is_run_callback =
      if v.has_callback then [Effect.run_callback g] else []) ∧
    ((_select v g final mode).filter Effect.is_selection_event =
      [Effect.selection_event (geometry_to_data v.xscale v.yscale g) final]) := by
  refine ⟨?_, select_filter_cb v g final mode, select_filter_ev v g final mode⟩
  rw [select_filter_sm, select_filter_cb, select_filter_ev]
  rw [_select, _emit_selection_event]

/-- Claim C10: every `_select` call publishes exactly one `SelectionGeometry`
notification, carrying the geometry converted to data space and the final
flag; when no computed renderer has a resolvable data-source identity (zero
groups, in particular an empty renderer scope) no selection manager is
invoked, yet the notification is still published exactly once. -/
theorem c10_one_notification (v : ToolView) (g : Geometry) (final : Bool)
    (mode : SelectionMode) :
    ((_select v g final mode).filter Effect.is_selection_event =
      [Effect.selection_event (geometry_to_data v.xscale v.yscale g) final]) ∧
    ((∀ r ∈ v.computed_renderers, r.source_id = none) →
      (_select v g final mode).filter Effect.is_sm_select = []) := by
  refine ⟨select_filter_ev v g final mode, ?_⟩
  intro hall
  rw [select_filter_sm]
  have hnil : _computed_renderers_by_data_source v.computed_renderers = [] := by
    by_contra hne
    obtain ⟨p, hp⟩ := List.exists_mem_of_ne_nil _ hne
    have hk : p.1 ∈ (_computed_renderers_by_data_source v.computed_renderers).map
        Prod.fst := List.mem_map.mpr ⟨p, hp, rfl⟩
    obtain ⟨r, hr, hsrc⟩ := (mem_keys _ _).mp hk
    rw [hall r hr] at hsrc
    exact absurd hsrc (by simp)
  rw [hnil]
  rfl

/-- Witness for C10: with only an unrecognized renderer kind in scope, no
selection manager is invoked and the single notification is still
published. -/
theorem c10_one_notification_witness :
    (_select v1 gpt true SelectionMode.replace).filter Effect.is_sm_select = [] ∧
    (_select v1 gpt true SelectionMode.replace).filter Effect.is_selection_event =
      [Effect.selection_event
        (geometry_to_data v1.xscale v1.yscale gpt) true] := by
  have h := c10_one_notification v1 gpt true SelectionMode.replace
  exact ⟨h.2 (by decide), h.1⟩

/-- Claim C9: dispatching a key event with the Escape code produces the same
end state — selection state of every data source and number of render
requests — as firing the tool's Clear broadcast primitive. -/
theorem c9_escape_equals_broadcast (v : ToolView) (st : PlotState)
    (ev : KeyEventModel) (h : ev.keyCode = Keys.Esc) :
    (∀ k : Nat, (applyTrace st (_keyup v ev)).selection k =
      (applyTrace st (clear_emit v)).selection k) ∧
    (applyTrace st (_keyup v ev)).renders =
      (applyTrace st (clear_emit v)).renders := by
  have h1 : _keyup v ev = _clear v := by rw [_keyup, if_pos h]
  have h2 : applyTrace st (clear_emit v) = applyTrace st (_clear v) := rfl
  rw [h1, h2]
  exact ⟨fun k => rfl, rfl⟩

/-- Witness for C9 at a concrete view, state, and Escape event. -/
theorem c9_escape_equals_broadcast_witness :
    (applyTrace st0 (_keyup v0 ⟨27⟩)).renders =
      (applyTrace st0 (clear_emit v0)).renders :=
  (c9_escape_equals_broadcast v0 st0 ⟨27⟩ rfl).2
